import Mathlib

/-!
# Verification of `cpiofile.py` (new-ASCII CPIO archive access)

A shallow embedding of `src/cpiofile.py`.  Bytes are modelled as `Nat`
(every byte the program handles is `< 256`), a seekable file-like object as
a list of bytes plus a cursor, Python `int` values as `Int` (Python's
`int(s, 16)` can produce negative values when the field carries a sign, and
the source performs no range check), and raised exceptions as `Except`.
Python's floor division `//` and floor modulus `%` by the positive constant
`4` coincide with Lean's `Int` `/` and `%` (Euclidean, which agrees with
floor division for a positive divisor), which `omega` understands.

One deliberate byte-level simplification, which no theorem below depends
on: the source stores entry names as `str` and converts with UTF-8
`encode`/`decode`.  UTF-8 encoding is injective, so we keep names as byte
sequences and compare at the byte level; a name whose bytes are not valid
UTF-8 would raise `UnicodeDecodeError` in Python where our `fromFile`
succeeds, so our decoder accepts a superset of the archives the source
accepts, and every theorem of the form "if decode succeeds then P" or
"decode fails with BadCPIOFile" transfers.  The dynamic parts of two error
messages built with f-strings around `repr` of the offending bytes (the
bad-magic and non-NUL-terminated-name errors) are elided; no theorem
inspects those two messages.
-/

namespace CPIO

/-- ASCII bytes of a string literal (helper for concrete archives and names). -/
def strBytes (s : String) : List Nat :=
  s.data.map Char.toNat

/-- A seekable, readable, writeable file-like object: the byte content and
the current cursor position. -/
structure File where
  data : List Nat
  pos : Nat
deriving DecidableEq

/-- Python `fp.read(n)`: with `n < 0` read to EOF, otherwise read at most
`n` bytes from the cursor; the cursor advances by the number of bytes
returned. -/
def File.read (fp : File) (n : Int) : List Nat × File :=
  let avail := fp.data.drop fp.pos
  let bs := if n < 0 then avail else avail.take n.toNat
  (bs, ⟨fp.data, fp.pos + bs.length⟩)

/-- Python `fp.seek(0, io.SEEK_END)`. -/
def File.seekEnd (fp : File) : File :=
  ⟨fp.data, fp.data.length⟩

/-- Python `fp.write(data)` at the current cursor: overwrite in place,
zero-filling any gap past EOF (writes in this program only ever happen at
the end of the file). -/
def File.write (fp : File) (bs : List Nat) : File :=
  ⟨fp.data.take fp.pos ++ List.replicate (fp.pos - fp.data.length) 0 ++ bs
      ++ fp.data.drop (fp.pos + bs.length),
   fp.pos + bs.length⟩

/-- The exceptions the source raises: `BadCPIOFile` for malformed archives
and `ValueError` for caller misuse. -/
inductive PyError where
  | badCPIOFile (msg : String)
  | valueError (msg : String)
deriving DecidableEq

deriving instance DecidableEq for Except

/-- Python `fp.seek(p, io.SEEK_SET)`: a negative target raises
`ValueError`. -/
def File.seekTo (fp : File) (p : Int) : Except PyError File :=
  if p < 0 then .error (.valueError "negative seek value")
  else .ok ⟨fp.data, p.toNat⟩

/-! ## Python `int(field, 16)`

`int(b, 16)` on a bytes object accepts optional surrounding ASCII
whitespace, an optional sign, an optional `0x`/`0X` prefix (an underscore
may directly follow the prefix), and hex digits of either case separated by
single underscores.  Anything else raises `ValueError`. -/

/-- The bytes Python's `int()` strips as whitespace. -/
def isPySpace (b : Nat) : Bool :=
  b = 32 ∨ b = 9 ∨ b = 10 ∨ b = 11 ∨ b = 12 ∨ b = 13

/-- Value of an ASCII hex digit byte (either case), if it is one. -/
def hexDigitVal (b : Nat) : Option Nat :=
  if 48 ≤ b ∧ b ≤ 57 then some (b - 48)
  else if 97 ≤ b ∧ b ≤ 102 then some (b - 87)
  else if 65 ≤ b ∧ b ≤ 70 then some (b - 55)
  else none

/-- Hex digits with single underscores strictly between digits.  `seen`
records whether a digit has been read, `und` whether the previous byte was
an underscore. -/
def parseHexCore : List Nat → Nat → Bool → Bool → Option Nat
  | [], acc, seen, und => if seen && !und then some acc else none
  | b :: rest, acc, seen, und =>
      match hexDigitVal b with
      | some d => parseHexCore rest (acc * 16 + d) true false
      | none =>
          if b = 95 then
            if seen && !und then parseHexCore rest acc seen true else none
          else none

/-- The digit part of `int(·, 16)` after sign stripping: an optional
`0x`/`0X` prefix, optionally followed by one underscore, then digits. -/
def pyIntHexBody (bs : List Nat) : Option Nat :=
  if bs.head? = some 48 ∧ (bs.tail.head? = some 120 ∨ bs.tail.head? = some 88) then
    if bs.tail.tail.head? = some 95 then parseHexCore bs.tail.tail.tail 0 false false
    else parseHexCore bs.tail.tail 0 false false
  else parseHexCore bs 0 false false

/-- Strip the whitespace `int()` ignores from both ends. -/
def stripSpaces (bs : List Nat) : List Nat :=
  ((bs.dropWhile isPySpace).reverse.dropWhile isPySpace).reverse

/-- Python `int(bs, 16)`: `none` models the raised `ValueError`. -/
def pyIntHex16 (bs : List Nat) : Option Int :=
  let s2 := stripSpaces bs
  if s2.head? = some 43 then (pyIntHexBody s2.tail).map (fun n => (n : Int))
  else if s2.head? = some 45 then (pyIntHexBody s2.tail).map (fun n => -(n : Int))
  else (pyIntHexBody s2).map (fun n => (n : Int))

/-- Value of a hex-digit byte, defaulting to 0 (proof-layer shorthand). -/
def hexVal (b : Nat) : Nat :=
  (hexDigitVal b).getD 0

/-- Accumulated value of a big-endian run of hex-digit bytes. -/
def hexFold (acc : Nat) (ds : List Nat) : Nat :=
  List.foldl (fun a d => a * 16 + hexVal d) acc ds

/-! ## Python `f"{x:08x}"` and `struct.pack` `"8s"` -/

/-- Lowercase hex digit byte for a value `< 16`. -/
def toHexDigit (n : Nat) : Nat :=
  if n < 10 then 48 + n else 87 + n

/-- Big-endian hex digits of `n`, accumulator style; `fuel ≥` the digit
count (we always call it with `fuel = n`, and `n < 16 ^ n`). -/
def hexDigitsAux : Nat → Nat → List Nat → List Nat
  | 0, _, acc => acc
  | fuel + 1, n, acc =>
      if n = 0 then acc
      else hexDigitsAux fuel (n / 16) (toHexDigit (n % 16) :: acc)

/-- Python `f"{n:x}"` for a nonnegative `n`: minimal lowercase hex digits,
`"0"` for zero. -/
def pyHex (n : Nat) : List Nat :=
  if n = 0 then [48] else hexDigitsAux n n []

/-- Zero-pad on the left to width `w` (Python's `0`-fill). -/
def padZeroTo (w : Nat) (ds : List Nat) : List Nat :=
  List.replicate (w - ds.length) 48 ++ ds

/-- Python `f"{x:08x}".encode("ASCII")`: sign-aware zero padding to width
8; a negative value renders as `-` followed by the digits of `|x|` zero
padded to width 7. -/
def pyFormat08x (x : Int) : List Nat :=
  if x < 0 then 45 :: padZeroTo 7 (pyHex (-x).toNat)
  else padZeroTo 8 (pyHex x.toNat)

/-- `struct.pack` field `"8s"`: truncate to 8 bytes, NUL-pad to 8 bytes. -/
def pack8s (bs : List Nat) : List Nat :=
  bs.take 8 ++ List.replicate (8 - bs.length) 0

/-! ## `CPIOInfo` -/

/-- `CPIOInfo`: one entry's metadata and position.  Numeric fields are
Python ints (`Int`: the decoder performs no range or sign check); `name`
holds the bytes the source stores in `_name` (the UTF-8 encoding of the
name, without the trailing NUL). -/
structure CPIOInfo where
  offset : Nat
  ino : Int
  mode : Int
  uid : Int
  gid : Int
  nlink : Int
  mtime : Int
  filesize : Int
  devmajor : Int
  devminor : Int
  rdevmajor : Int
  rdevminor : Int
  name : List Nat
deriving DecidableEq

/-- The magic bytes `b"070701"`. -/
def magicBytes : List Nat := strBytes "070701"

/-- The bytes of the trailer name `"TRAILER!!!"`. -/
def trailerName : List Nat := strBytes "TRAILER!!!"

/-- The `values` tuple of `CPIOInfo.encode`: the 11 numeric fields, then
`namesize = len(name) + 1`, then the constant-zero check field. -/
def fieldValues (info : CPIOInfo) : List Int :=
  [info.ino, info.mode, info.uid, info.gid, info.nlink, info.mtime,
   info.filesize, info.devmajor, info.devminor, info.rdevmajor,
   info.rdevminor, (info.name.length : Int) + 1, 0]

/-- `_ENTRY_HEADER.pack(B"070701", *values)`: the magic followed by the 13
fields, each formatted `f"{x:08x}"` and packed into an 8-byte `"8s"`
slot. -/
def encodedHeader (info : CPIOInfo) : List Nat :=
  magicBytes ++ ((fieldValues info).map (fun v => pack8s (pyFormat08x v))).flatten

/-- `CPIOInfo.encode`: the packed header, then the name, one NUL, and zero
padding bringing the total length to a multiple of 4. -/
def CPIOInfo.encode (info : CPIOInfo) : List Nat :=
  let ret := encodedHeader info ++ info.name ++ [0]
  ret ++ List.replicate ((4 - ret.length % 4) % 4) 0

/-- The `i`-th 8-byte field of a 110-byte header (`i = 0` is `ino`,
`i = 11` is `namesize`, `i = 12` is `check`). -/
def headerField (header : List Nat) (i : Nat) : List Nat :=
  (header.drop (6 + 8 * i)).take 8

/-- Combine the field parses: `none` if any parse raised.  (The source
parses the twelve fields one after another inside a single `try` whose
handler raises one fixed error, so only whether some parse fails is
observable.) -/
def seqOption : List (Option α) → Option (List α)
  | [] => some []
  | o :: rest =>
      match o with
      | none => none
      | some v =>
          match seqOption rest with
          | none => none
          | some vs => some (v :: vs)

/-- `CPIOInfo._from_file`: read a 110-byte header at the cursor, check the
magic, parse the 12 fields `ino` … `namesize` as base-16 ints (the `check`
field is unpacked into `_` and never parsed), reject `namesize == 0`, read
`namesize` name bytes, require the last to be NUL and strip it. -/
def CPIOInfo.fromFile (fp : File) : Except PyError (CPIOInfo × File) :=
  let offset := fp.pos
  let r := fp.read 110
  let header := r.1
  let fp1 := r.2
  if header.length ≠ 110 then .error (.badCPIOFile "CPIO truncated.") else
  if header.take 6 ≠ magicBytes then
    .error (.badCPIOFile "Bad magic or not a new-ASCII CPIO.") else
  match seqOption ((List.range 12).map (fun i => pyIntHex16 (headerField header i))) with
  | none => .error (.badCPIOFile "CPIO header contains non-hex-encoded integer.")
  | some vals =>
      let namesize := vals.getD 11 0
      if namesize = 0 then
        .error (.badCPIOFile "CPIO entry with zero-length filename.") else
      let r2 := fp1.read namesize
      let nameB := r2.1
      let fp2 := r2.2
      if (nameB.length : Int) ≠ namesize then
        .error (.badCPIOFile "CPIO truncated.") else
      if nameB.getLast? ≠ some 0 then
        .error (.badCPIOFile "CPIO entry with non-NUL-terminated filename.") else
      .ok (⟨offset, vals.getD 0 0, vals.getD 1 0, vals.getD 2 0, vals.getD 3 0,
            vals.getD 4 0, vals.getD 5 0, vals.getD 6 0, vals.getD 7 0,
            vals.getD 8 0, vals.getD 9 0, vals.getD 10 0, nameB.dropLast⟩, fp2)

/-- `CPIOInfo._offset_data`: `offset + (110 + len(name) + 1 + 3) // 4 * 4`. -/
def CPIOInfo.offsetData (info : CPIOInfo) : Nat :=
  info.offset + (110 + info.name.length + 1 + 3) / 4 * 4

/-- `CPIOInfo._offset_after`: `_offset_data + (filesize + 3) // 4 * 4`
(`filesize` is a Python int, so the result is an `Int`). -/
def CPIOInfo.offsetAfter (info : CPIOInfo) : Int :=
  (info.offsetData : Int) + (info.filesize + 3) / 4 * 4

/-! ## The archive and member streams -/

/-- `CPIOFile`: the file-like store, whether mode is `"w"`, and the
single-writer latch. -/
structure CPIOFile where
  file : File
  writeable : Bool
  writer_active : Bool
deriving DecidableEq

/-- `CPIOFile.__init__`: any mode other than `"r"`/`"w"` raises. -/
def CPIOFile.init (fp : File) (mode : String) : Except PyError CPIOFile :=
  if mode ≠ "r" ∧ mode ≠ "w" then
    .error (.valueError ("Unknown mode " ++ mode ++ "."))
  else .ok ⟨fp, mode = "w", false⟩

/-- `_ReadableMember`: data start, declared length, and bytes read so far. -/
structure ReadableMember where
  start : Nat
  length : Int
  pos : Int
deriving DecidableEq

/-- `_ReadableMember.__init__`. -/
def ReadableMember.ofInfo (info : CPIOInfo) : ReadableMember :=
  ⟨info.offsetData, info.filesize, 0⟩

/-- `_ReadableMember._read` with `fn = fp.read`: clip `n` to the remaining
declared length, seek absolutely to `start + pos`, read, and advance `pos`
by the bytes actually returned.  The shared store is passed in and
returned. -/
def ReadableMember.read (m : ReadableMember) (fp : File) (n : Int) :
    List Nat × ReadableMember × File :=
  let n := if n < 0 ∨ n > m.length - m.pos then m.length - m.pos else n
  let fp := File.mk fp.data (m.start + m.pos).toNat
  let r := fp.read n
  (r.1, ⟨m.start, m.length, m.pos + r.1.length⟩, r.2)

/-- `_WriteableMember`: declared length, accumulated length, closed flag. -/
structure WriteableMember where
  expected_length : Int
  actual_length : Nat
  closed : Bool
deriving DecidableEq

/-- `_WriteableMember.__init__`: fail if the latch is held, otherwise set
it, seek the store to its end and write the encoded header.  On failure the
archive is returned untouched (the source raises before any mutation). -/
def WriteableMember.init (a : CPIOFile) (info : CPIOInfo) :
    Except PyError WriteableMember × CPIOFile :=
  if a.writer_active then
    (.error (.valueError "Cannot open two CPIO member writers at the same time."), a)
  else
    (.ok ⟨info.filesize, 0, false⟩,
     ⟨(a.file.seekEnd).write info.encode, a.writeable, true⟩)

/-- `_WriteableMember.write`: seek to the end, append, accumulate. -/
def WriteableMember.write (wm : WriteableMember) (a : CPIOFile) (bs : List Nat) :
    WriteableMember × CPIOFile :=
  (⟨wm.expected_length, wm.actual_length + bs.length, wm.closed⟩,
   ⟨(a.file.seekEnd).write bs, a.writeable, a.writer_active⟩)

/-- `_WriteableMember.close`: a second close is a no-op; a length mismatch
raises before any state change; otherwise write zero padding to the next
multiple of 4, mark closed and release the latch. -/
def WriteableMember.close (wm : WriteableMember) (a : CPIOFile) :
    Except PyError Unit × WriteableMember × CPIOFile :=
  if wm.closed then (.ok (), wm, a)
  else if (wm.actual_length : Int) ≠ wm.expected_length then
    (.error (.valueError ("Writer wrote " ++ toString wm.actual_length
        ++ " bytes but info specified " ++ toString wm.expected_length
        ++ " bytes.")), wm, a)
  else
    (.ok (),
     ⟨wm.expected_length, wm.actual_length, true⟩,
     ⟨(a.file.seekEnd).write (List.replicate ((4 - wm.actual_length % 4) % 4) 0),
      a.writeable, false⟩)

/-- The result of opening a member: either stream kind. -/
inductive Member where
  | readable (rm : ReadableMember)
  | writeable (wm : WriteableMember)
deriving DecidableEq

/-- `CPIOFile.open` (named `openMember` because `open` is a Lean keyword):
`"r"` always returns a read stream with no mode check; `"w"` requires a
writeable archive; anything else raises. -/
def CPIOFile.openMember (a : CPIOFile) (info : CPIOInfo) (mode : String) :
    Except PyError Member × CPIOFile :=
  if mode = "r" then (.ok (.readable (ReadableMember.ofInfo info)), a)
  else if mode = "w" then
    if a.writeable then
      let r := WriteableMember.init a info
      (r.1.map Member.writeable, r.2)
    else (.error (.valueError "CPIO is open read-only."), a)
  else (.error (.valueError ("Unknown mode " ++ mode ++ ".")), a)

/-- The synthetic trailer descriptor
`CPIOInfo(0, 0, 0o755, 0, 0, 1, 0, 0, 0, 0, 0, 0, "TRAILER!!!")`. -/
def trailerInfo : CPIOInfo :=
  ⟨0, 0, 493, 0, 0, 1, 0, 0, 0, 0, 0, 0, trailerName⟩

/-- `CPIOFile.close`: in write mode, fail while a member writer is open,
otherwise open a write stream for the trailer descriptor and immediately
close it (the `with` block calls the member's `close`). -/
def CPIOFile.close (a : CPIOFile) : Except PyError Unit × CPIOFile :=
  if a.writeable then
    if a.writer_active then
      (.error (.valueError "Cannot close CPIO until member writer has been closed."), a)
    else
      match WriteableMember.init a trailerInfo with
      | (.ok wm, a1) =>
          let r := wm.close a1
          (r.1, r.2.2)
      | (.error e, a1) => (.error e, a1)
  else (.ok (), a)

/-! ## The scan (`CPIOFile.infolist`) -/

/-- How a (fuel-bounded) scan finished. -/
inductive ScanOutcome where
  | ended
  | failed (e : PyError)
  | outOfFuel
deriving DecidableEq

/-- The descriptors a scan yielded, and how it finished. -/
structure ScanResult where
  yielded : List CPIOInfo
  outcome : ScanOutcome
deriving DecidableEq

/-- The loop of `CPIOFile.infolist`, fuel-bounded (the source generator
need not terminate on adversarial archives): decode an entry at the
cursor; stop silently on the trailer name; otherwise yield the entry and
seek to `_offset_after` (a raised exception after a yield keeps the
descriptors already yielded). -/
def scanFrom (fp : File) : Nat → ScanResult
  | 0 => ⟨[], .outOfFuel⟩
  | fuel + 1 =>
      match CPIOInfo.fromFile fp with
      | .error e => ⟨[], .failed e⟩
      | .ok (info, fp') =>
          if info.name = trailerName then ⟨[], .ended⟩
          else
            match fp'.seekTo info.offsetAfter with
            | .error e => ⟨[info], .failed e⟩
            | .ok fp'' =>
                let r := scanFrom fp'' fuel
                ⟨info :: r.yielded, r.outcome⟩

/-- `CPIOFile.infolist`: seek to 0 and scan. -/
def CPIOFile.infolist (a : CPIOFile) (fuel : Nat) : ScanResult :=
  scanFrom ⟨a.file.data, 0⟩ fuel

/-- Driver for the round-trip scenario: construct a `CPIOFile` over an
empty store in `"w"` mode, open one member writer for `info`, write
`data`, close the member, and return the resulting store.  (The two
impossible branches — a read stream out of `"w"`, which `openMember`
never returns — surface as errors.) -/
def writeOneMember (info : CPIOInfo) (data : List Nat) : Except PyError File :=
  match CPIOFile.init ⟨[], 0⟩ "w" with
  | .error e => .error e
  | .ok a0 =>
      match a0.openMember info "w" with
      | (.error e, _) => .error e
      | (.ok (.readable _), _) => .error (.valueError "not a member writer")
      | (.ok (.writeable wm), a1) =>
          let r := wm.write a1 data
          match r.1.close r.2 with
          | (.error e, _, _) => .error e
          | (.ok _, _, a3) => .ok a3.file

/-- Driver for reading a member back in full: `open(info, "r")` followed
by one `read(-1)` (the `"r"` branch always returns a read stream, so the
catch-all is unreachable). -/
def readMemberAll (a : CPIOFile) (info : CPIOInfo) : List Nat :=
  match a.openMember info "r" with
  | (.ok (.readable rm), a1) => (rm.read a1.file (-1)).1
  | _ => []


/-! ## Helper lemmas -/

/-- Writing with the cursor at the end of the file appends. -/
theorem File.write_at_end (d bs : List Nat) :
    File.write ⟨d, d.length⟩ bs = ⟨d ++ bs, d.length + bs.length⟩ := by
  simp [File.write, List.drop_eq_nil_of_le]

/-- `seekEnd` then `write` appends, for any starting cursor. -/
theorem File.seekEnd_write (fp : File) (bs : List Nat) :
    (fp.seekEnd).write bs = ⟨fp.data ++ bs, fp.data.length + bs.length⟩ := by
  simp [File.seekEnd, File.write_at_end]

/-- A packed field is always exactly 8 bytes. -/
theorem pack8s_length (bs : List Nat) : (pack8s bs).length = 8 := by
  simp [pack8s]
  omega

/-- Packing a list that is already 8 bytes long is the identity. -/
theorem pack8s_of_length_eq (bs : List Nat) (h : bs.length = 8) :
    pack8s bs = bs := by
  simp [pack8s, h, List.take_of_length_le (le_of_eq h)]

/-- `hexDigitVal` inverts `toHexDigit` on values below 16. -/
theorem hexDigitVal_toHexDigit {v : Nat} (h : v < 16) :
    hexDigitVal (toHexDigit v) = some v := by
  unfold toHexDigit hexDigitVal
  split <;> rename_i h10
  · rw [if_pos (by omega)]
    congr 1
    omega
  · rw [if_neg (by omega), if_pos (by omega)]
    congr 1
    omega

/-- Bytes produced by `toHexDigit` are ASCII hex digits, hence in
particular not whitespace, not a sign, not `x`/`X`, and not an
underscore. -/
theorem toHexDigit_range {v : Nat} (h : v < 16) :
    (48 ≤ toHexDigit v ∧ toHexDigit v ≤ 57) ∨
      (97 ≤ toHexDigit v ∧ toHexDigit v ≤ 102) := by
  unfold toHexDigit
  split <;> omega

theorem hexFold_nil (acc : Nat) : hexFold acc [] = acc := rfl

theorem hexFold_cons (acc : Nat) (d : Nat) (ds : List Nat) :
    hexFold acc (d :: ds) = hexFold (acc * 16 + hexVal d) ds := rfl

theorem hexFold_append (acc : Nat) (l1 l2 : List Nat) :
    hexFold acc (l1 ++ l2) = hexFold (hexFold acc l1) l2 := by
  simp [hexFold, List.foldl_append]

/-- `parseHexCore` on a run of plain hex digits accumulates their value. -/
theorem parseHexCore_digits :
    ∀ (ds : List Nat) (acc : Nat) (seen : Bool),
      (∀ d ∈ ds, (hexDigitVal d).isSome) → (ds ≠ [] ∨ seen = true) →
      parseHexCore ds acc seen false = some (hexFold acc ds) := by
  intro ds
  induction ds with
  | nil =>
      intro acc seen _ hne
      rcases hne with h | h
      · exact absurd rfl h
      · simp [parseHexCore, h, hexFold_nil]
  | cons d rest ih =>
      intro acc seen hdig _
      have hd : (hexDigitVal d).isSome := hdig d (by simp)
      rcases Option.isSome_iff_exists.mp hd with ⟨v, hv⟩
      have : hexVal d = v := by simp [hexVal, hv]
      rcases rest with _ | ⟨r, rs⟩
      · simp [parseHexCore, hv, hexFold_cons, hexFold_nil, this]
      · rw [hexFold_cons, this]
        simpa [parseHexCore, hv] using
          ih (acc * 16 + v) true (fun x hx => hdig x (by simp [hx])) (by simp)

/-- `hexDigitsAux` with `n = 0` returns the accumulator unchanged. -/
theorem hexDigitsAux_zero : ∀ (f : Nat) (acc : List Nat),
    hexDigitsAux f 0 acc = acc
  | 0, _ => rfl
  | _ + 1, _ => by simp [hexDigitsAux]

/-- Specification of `hexDigitsAux` for a positive value within fuel: it
prepends a nonempty run of hex-digit bytes whose accumulated value is the
value rendered, of length bounded below by the 16-logarithm. -/
theorem hexDigitsAux_spec :
    ∀ (f m : Nat) (acc : List Nat), 0 < m → m < 16 ^ f →
      ∃ ds, hexDigitsAux f m acc = ds ++ acc ∧ ds ≠ [] ∧
        (∀ d ∈ ds, ∃ v, v < 16 ∧ d = toHexDigit v) ∧
        (∀ a0, hexFold a0 ds = a0 * 16 ^ ds.length + m) ∧
        16 ^ (ds.length - 1) ≤ m := by
  intro f
  induction f with
  | zero => intro m acc hm hlt; omega
  | succ f ih =>
      intro m acc hm hlt
      rw [hexDigitsAux, if_neg (by omega)]
      by_cases hq : m / 16 = 0
      · have hm16 : m < 16 := by omega
        have hmod : m % 16 = m := Nat.mod_eq_of_lt hm16
        rw [hq, hexDigitsAux_zero]
        refine ⟨[toHexDigit (m % 16)], rfl, by simp, ?_, ?_, by simpa using hm⟩
        · intro d hd
          simp at hd
          exact ⟨m % 16, by omega, hd⟩
        · intro a0
          simp [hexFold_cons, hexFold_nil, hexVal,
            hexDigitVal_toHexDigit (show m % 16 < 16 by omega), hmod,
            hexDigitVal_toHexDigit hm16]
      · have hqlt : m / 16 < 16 ^ f := by
          rw [Nat.div_lt_iff_lt_mul (by omega)]
          calc m < 16 ^ (f + 1) := hlt
          _ = 16 ^ f * 16 := by ring
        rcases ih (m / 16) (toHexDigit (m % 16) :: acc) (by omega) hqlt with
          ⟨ds', heq, hne, hdig, hval, hlb⟩
        refine ⟨ds' ++ [toHexDigit (m % 16)], by simp [heq], by simp, ?_, ?_, ?_⟩
        · intro d hd
          rcases List.mem_append.mp hd with h | h
          · exact hdig d h
          · simp at h
            exact ⟨m % 16, by omega, h⟩
        · intro a0
          rw [hexFold_append, hval a0, hexFold_cons, hexFold_nil, hexVal,
            hexDigitVal_toHexDigit (show m % 16 < 16 by omega)]
          simp only [List.length_append, List.length_singleton, Option.getD_some]
          rw [pow_succ]
          have := Nat.div_add_mod m 16
          ring_nf
          omega
        · have h1 : 1 ≤ ds'.length := by
            cases ds' with
            | nil => exact absurd rfl hne
            | cons _ _ => simp
          have : 16 ^ ds'.length ≤ m / 16 * 16 := by
            calc 16 ^ ds'.length = 16 ^ (ds'.length - 1) * 16 := by
                  rw [← pow_succ]
                  congr 1
                  omega
            _ ≤ m / 16 * 16 := by exact Nat.mul_le_mul_right 16 hlb
          have h2 : m / 16 * 16 ≤ m := Nat.div_mul_le_self m 16
          simp only [List.length_append, List.length_singleton]
          calc 16 ^ (ds'.length + 1 - 1) = 16 ^ ds'.length := by congr 1
          _ ≤ m := le_trans this h2

/-- Specification of `pyHex`: a nonempty run of hex-digit bytes, of value
`m`, with at most 8 digits whenever `m < 16 ^ 8`. -/
theorem pyHex_spec (m : Nat) :
    pyHex m ≠ [] ∧ (∀ d ∈ pyHex m, ∃ v, v < 16 ∧ d = toHexDigit v) ∧
      (∀ a0, hexFold a0 (pyHex m) = a0 * 16 ^ (pyHex m).length + m) ∧
      (m < 16 ^ 8 → (pyHex m).length ≤ 8) := by
  by_cases hm : m = 0
  · subst hm
    refine ⟨by simp [pyHex], ?_, ?_, by simp [pyHex]⟩
    · intro d hd
      simp [pyHex] at hd
      exact ⟨0, by omega, by simp [hd, toHexDigit]⟩
    · intro a0
      simp [pyHex, hexFold_cons, hexFold_nil, hexVal, hexDigitVal]
  · have hlt : m < 16 ^ m := Nat.lt_pow_self (by omega) m
    rcases hexDigitsAux_spec m m [] (by omega) hlt with ⟨ds, heq, hne, hdig, hval, hlb⟩
    rw [pyHex, if_neg hm, heq, List.append_nil]
    refine ⟨hne, hdig, hval, ?_⟩
    intro h8
    by_contra hlen
    have : 16 ^ 8 ≤ 16 ^ (ds.length - 1) :=
      Nat.pow_le_pow_right (by omega) (by omega)
    omega

/-- A hex-digit byte lies in one of the three ASCII digit ranges. -/
theorem hexByte_ranges {b : Nat} (h : (hexDigitVal b).isSome) :
    (48 ≤ b ∧ b ≤ 57) ∨ (97 ≤ b ∧ b ≤ 102) ∨ (65 ≤ b ∧ b ≤ 70) := by
  unfold hexDigitVal at h
  split at h
  · omega
  · split at h
    · omega
    · split at h
      · omega
      · simp at h

/-- Hex-digit bytes are not `int()` whitespace. -/
theorem hexByte_not_space {b : Nat} (h : (hexDigitVal b).isSome) :
    isPySpace b = false := by
  have := hexByte_ranges h
  simp only [isPySpace, decide_eq_false_iff_not]
  omega

/-- `dropWhile` is the identity when no element satisfies the predicate. -/
theorem dropWhile_eq_self_of {p : Nat → Bool} :
    ∀ {l : List Nat}, (∀ b ∈ l, p b = false) → l.dropWhile p = l := by
  intro l
  induction l with
  | nil => intro _; rfl
  | cons b rest _ =>
      intro h
      simp [List.dropWhile_cons, h b (by simp)]

/-- `pyIntHexBody` on a nonempty run of plain hex digits is `parseHexCore`
(the `0x` prefix can never fire, because `x`/`X` are not hex digits). -/
theorem pyIntHexBody_digits {bs : List Nat}
    (hdig : ∀ b ∈ bs, (hexDigitVal b).isSome) (hne : bs ≠ []) :
    pyIntHexBody bs = some (hexFold 0 bs) := by
  have hpref : ¬(bs.head? = some 48 ∧
      (bs.tail.head? = some 120 ∨ bs.tail.head? = some 88)) := by
    rcases bs with _ | ⟨b0, _ | ⟨x, rest⟩⟩
    · simp
    · simp
    · have := hexByte_ranges (hdig x (by simp))
      simp only [List.head?_cons, List.tail_cons, Option.some.injEq, not_and, not_or]
      omega
  rw [pyIntHexBody, if_neg hpref]
  exact parseHexCore_digits bs 0 false hdig (Or.inl hne)

/-- `pyIntHex16` on a nonempty run of plain hex digits returns their
big-endian value. -/
theorem pyIntHex16_digits {bs : List Nat}
    (hdig : ∀ b ∈ bs, (hexDigitVal b).isSome) (hne : bs ≠ []) :
    pyIntHex16 bs = some ((hexFold 0 bs : Nat) : Int) := by
  have hnospace : ∀ b ∈ bs, isPySpace b = false :=
    fun b hb => hexByte_not_space (hdig b hb)
  have hstrip : stripSpaces bs = bs := by
    rw [stripSpaces, dropWhile_eq_self_of hnospace,
      dropWhile_eq_self_of (fun b hb => hnospace b (List.mem_reverse.mp hb)),
      List.reverse_reverse]
  have hsign : bs.head? ≠ some 43 ∧ bs.head? ≠ some 45 := by
    rcases bs with _ | ⟨b, rest⟩
    · simp
    · have := hexByte_ranges (hdig b (by simp))
      simp only [List.head?_cons, ne_eq, Option.some.injEq]
      omega
  rw [pyIntHex16]
  simp only [hstrip]
  rw [if_neg hsign.1, if_neg hsign.2, pyIntHexBody_digits hdig hne]
  rfl

/-- `hexFold` ignores leading zero digits. -/
theorem hexFold_replicate48 (k : Nat) :
    hexFold 0 (List.replicate k 48) = 0 := by
  induction k with
  | zero => rfl
  | succ k ih =>
      rw [List.replicate_succ, hexFold_cons]
      simpa [hexVal, hexDigitVal] using ih

/-- The zero-padded 8-digit rendering of `x < 16 ^ 8` parses back to `x`
and has length exactly 8. -/
theorem pyIntHex16_padded {x : Nat} (hx : x < 16 ^ 8) :
    pyIntHex16 (padZeroTo 8 (pyHex x)) = some (x : Int) ∧
      (padZeroTo 8 (pyHex x)).length = 8 := by
  rcases pyHex_spec x with ⟨hne, hdig, hval, hlen⟩
  have hdig' : ∀ b ∈ padZeroTo 8 (pyHex x), (hexDigitVal b).isSome := by
    intro b hb
    rcases List.mem_append.mp hb with h | h
    · have : b = 48 := by
        have := List.eq_of_mem_replicate h
        exact this
      simp [this, hexDigitVal]
    · rcases hdig b h with ⟨v, hv, rfl⟩
      simp [hexDigitVal_toHexDigit hv]
  have hne' : padZeroTo 8 (pyHex x) ≠ [] := by
    simp only [padZeroTo]
    intro h
    rcases List.append_eq_nil.mp h with ⟨_, h2⟩
    exact hne h2
  constructor
  · rw [pyIntHex16_digits hdig' hne']
    congr 1
    rw [padZeroTo, hexFold_append, hexFold_replicate48, hval 0]
    simp
  · simp only [padZeroTo, List.length_append, List.length_replicate]
    have := hlen hx
    omega

/-- For a Python int `v` with `0 ≤ v < 2 ^ 32`, the encoded 8-byte header
field parses back to exactly `v`. -/
theorem field_roundtrip {v : Int} (h0 : 0 ≤ v) (h32 : v < 2 ^ 32) :
    pyIntHex16 (pack8s (pyFormat08x v)) = some v := by
  have htn : v.toNat < 16 ^ 8 := by omega
  rcases pyIntHex16_padded htn with ⟨hparse, hlen⟩
  rw [pyFormat08x, if_neg (by omega), pack8s_of_length_eq _ hlen, hparse,
    Int.toNat_of_nonneg h0]

/-- Extracting an aligned 8-byte slice out of a concatenation of 8-byte
groups returns the corresponding group. -/
theorem flatten_extract :
    ∀ (gs : List (List Nat)) (rest : List Nat) (i : Nat),
      (∀ g ∈ gs, g.length = 8) → i < gs.length →
      ((gs.flatten ++ rest).drop (8 * i)).take 8 = gs.getD i [] := by
  intro gs
  induction gs with
  | nil => intro rest i _ h; simp at h
  | cons g gs ih =>
      intro rest i hlen hi
      rcases i with _ | i
      · simp only [Nat.mul_zero, List.drop_zero, List.flatten_cons,
          List.append_assoc, List.getD_cons_zero]
        exact List.take_left' (hlen g (by simp))
      · have hg : g.length = 8 := hlen g (by simp)
        have hdrop : (g ++ (gs.flatten ++ rest)).drop (8 + 8 * i)
            = (gs.flatten ++ rest).drop (8 * i) := by
          rw [← hg, List.drop_append]
        rw [List.flatten_cons, List.append_assoc,
          show 8 * (i + 1) = 8 + 8 * i by ring, hdrop, List.getD_cons_succ]
        exact ih rest i (fun x hx => hlen x (by simp [hx])) (by simpa using hi)

/-- The packed header is 6 + 13 × 8 = 110 bytes. -/
theorem encodedHeader_length (info : CPIOInfo) :
    (encodedHeader info).length = 110 := by
  have : ∀ vs : List Int,
      ((vs.map (fun v => pack8s (pyFormat08x v))).flatten).length = 8 * vs.length := by
    intro vs
    induction vs with
    | nil => rfl
    | cons v vs ih => simp [ih, pack8s_length, Nat.mul_add, Nat.add_comm]
  have h13 : (fieldValues info).length = 13 := by simp [fieldValues]
  rw [encodedHeader, List.length_append, this, h13,
    show magicBytes.length = 6 from rfl]

/-- Reading the `i`-th field of an encoded header (followed by anything)
returns the packed rendering of the `i`-th value. -/
theorem headerField_encodedHeader (info : CPIOInfo) (rest : List Nat) {i : Nat}
    (hi : i < 13) :
    headerField (encodedHeader info ++ rest) i =
      pack8s (pyFormat08x ((fieldValues info).getD i 0)) := by
  have hmagic : magicBytes.length = 6 := rfl
  have hlen13 : (fieldValues info).length = 13 := by simp [fieldValues]
  have hdrop :
      (magicBytes ++
          (((fieldValues info).map (fun v => pack8s (pyFormat08x v))).flatten ++ rest)).drop
          (6 + 8 * i)
        = (((fieldValues info).map (fun v => pack8s (pyFormat08x v))).flatten ++ rest).drop
            (8 * i) := by
    rw [← hmagic, List.drop_append]
  rw [headerField, encodedHeader, List.append_assoc, hdrop,
    flatten_extract _ _ i (by

      intro g hg
      rcases List.mem_map.mp hg with ⟨v, _, rfl⟩
      exact pack8s_length _) (by simpa [hlen13] using hi)]
  have hi' : i < (fieldValues info).length := by omega
  simp [List.getD, List.getElem?_map, List.getElem?_eq_getElem hi']

/-- Sequencing a list of `some`s yields the list of values. -/
theorem seqOption_map_some {α β : Type} (l : List α) (f : α → β) :
    seqOption (l.map (fun a => some (f a))) = some (l.map f) := by
  induction l with
  | nil => rfl
  | cons a l ih => simp [seqOption, ih]

/-- Each field of a descriptor whose `values` are 32-bit parses back to
itself. -/
theorem fieldValues_parse (info : CPIOInfo)
    (hrange : ∀ v ∈ fieldValues info, 0 ≤ v ∧ v < 2 ^ 32) {i : Nat}
    (hi : i < 13) :
    pyIntHex16 (pack8s (pyFormat08x ((fieldValues info).getD i 0)))
      = some ((fieldValues info).getD i 0) := by
  have hmem : (fieldValues info).getD i 0 ∈ fieldValues info := by
    interval_cases i <;> simp [fieldValues, List.getD]
  rcases hrange _ hmem with ⟨h0, h32⟩
  exact field_roundtrip h0 h32

/-- Decoding an encoded entry at position 0 recovers the descriptor
(offset 0) and leaves the cursor just past the name's NUL. -/
theorem fromFile_encode (info : CPIOInfo) (rest : List Nat)
    (hrange : ∀ v ∈ fieldValues info, 0 ≤ v ∧ v < 2 ^ 32) :
    CPIOInfo.fromFile ⟨info.encode ++ rest, 0⟩ =
      .ok (⟨0, info.ino, info.mode, info.uid, info.gid, info.nlink, info.mtime,
            info.filesize, info.devmajor, info.devminor, info.rdevmajor,
            info.rdevminor, info.name⟩,
           ⟨info.encode ++ rest, 111 + info.name.length⟩) := by
  have hEH := encodedHeader_length info
  have hdata : info.encode ++ rest = encodedHeader info ++
      ((info.name ++ [0]) ++
        (List.replicate
            ((4 - (encodedHeader info ++ info.name ++ [0]).length % 4) % 4) 0
          ++ rest)) := by
    simp [CPIOInfo.encode, List.append_assoc]
  have htake110 : (info.encode ++ rest).take 110 = encodedHeader info := by
    rw [hdata, List.take_left' hEH]
  have hdrop110 : (info.encode ++ rest).drop 110 = (info.name ++ [0]) ++
      (List.replicate
          ((4 - (encodedHeader info ++ info.name ++ [0]).length % 4) % 4) 0
        ++ rest) := by
    rw [hdata, List.drop_left' hEH]
  have hread : File.read ⟨info.encode ++ rest, 0⟩ 110
      = (encodedHeader info, ⟨info.encode ++ rest, 110⟩) := by
    rw [File.read]
    simp only [List.drop_zero]
    rw [if_neg (by omega), show ((110 : Int)).toNat = 110 from rfl, htake110, hEH]
  have hfield : ∀ i, i < 13 → headerField (encodedHeader info) i
      = pack8s (pyFormat08x ((fieldValues info).getD i 0)) := by
    intro i hi
    simpa using headerField_encodedHeader info [] hi
  have hseq : seqOption ((List.range 12).map
        (fun i => pyIntHex16 (headerField (encodedHeader info) i)))
      = some ((List.range 12).map (fun i => (fieldValues info).getD i 0)) := by
    rw [show (List.range 12).map
          (fun i => pyIntHex16 (headerField (encodedHeader info) i))
        = (List.range 12).map (fun i => some ((fieldValues info).getD i 0)) by
      apply List.map_congr_left
      intro i hi
      have hi13 : i < 13 := by
        have := List.mem_range.mp hi
        omega
      rw [hfield i hi13, fieldValues_parse info hrange hi13]]
    exact seqOption_map_some _ _
  have hL : (((info.name.length : Int)) + 1).toNat = info.name.length + 1 := by
    omega
  have hread2 : File.read ⟨info.encode ++ rest, 110⟩
        ((info.name.length : Int) + 1)
      = (info.name ++ [0], ⟨info.encode ++ rest, 111 + info.name.length⟩) := by
    rw [File.read]
    simp only
    rw [if_neg (by omega), hL, hdrop110, List.take_left' (by simp)]
    simp only [List.length_append, List.length_singleton]
    congr 2
    omega
  rw [CPIOInfo.fromFile]
  simp only [hread, hseq]
  rw [if_neg (by omega)]
  rw [if_neg (show ¬((encodedHeader info).take 6 ≠ magicBytes) by
    rw [encodedHeader, List.take_left' (show magicBytes.length = 6 from rfl)]
    simp)]
  simp only
    [show ∀ f : Nat → Int, ((List.range 12).map f).getD 11 0 = f 11 from fun _ => rfl]
  rw [show (fieldValues info).getD 11 0 = (info.name.length : Int) + 1 from rfl]
  rw [if_neg (by omega)]
  simp only [hread2]
  rw [if_neg (by
    simp only [List.length_append, List.length_singleton]
    push_cast
    omega)]
  rw [if_neg (by
    rw [List.getLast?_concat]
    simp)]
  simp only [List.dropLast_concat,
    show ∀ f : Nat → Int, ((List.range 12).map f).getD 0 0 = f 0 from fun _ => rfl,
    show ∀ f : Nat → Int, ((List.range 12).map f).getD 1 0 = f 1 from fun _ => rfl,
    show ∀ f : Nat → Int, ((List.range 12).map f).getD 2 0 = f 2 from fun _ => rfl,
    show ∀ f : Nat → Int, ((List.range 12).map f).getD 3 0 = f 3 from fun _ => rfl,
    show ∀ f : Nat → Int, ((List.range 12).map f).getD 4 0 = f 4 from fun _ => rfl,
    show ∀ f : Nat → Int, ((List.range 12).map f).getD 5 0 = f 5 from fun _ => rfl,
    show ∀ f : Nat → Int, ((List.range 12).map f).getD 6 0 = f 6 from fun _ => rfl,
    show ∀ f : Nat → Int, ((List.range 12).map f).getD 7 0 = f 7 from fun _ => rfl,
    show ∀ f : Nat → Int, ((List.range 12).map f).getD 8 0 = f 8 from fun _ => rfl,
    show ∀ f : Nat → Int, ((List.range 12).map f).getD 9 0 = f 9 from fun _ => rfl,
    show ∀ f : Nat → Int, ((List.range 12).map f).getD 10 0 = f 10 from fun _ => rfl]
  rw [show (fieldValues info).getD 0 0 = info.ino from rfl,
    show (fieldValues info).getD 1 0 = info.mode from rfl,
    show (fieldValues info).getD 2 0 = info.uid from rfl,
    show (fieldValues info).getD 3 0 = info.gid from rfl,
    show (fieldValues info).getD 4 0 = info.nlink from rfl,
    show (fieldValues info).getD 5 0 = info.mtime from rfl,
    show (fieldValues info).getD 6 0 = info.filesize from rfl,
    show (fieldValues info).getD 7 0 = info.devmajor from rfl,
    show (fieldValues info).getD 8 0 = info.devminor from rfl,
    show (fieldValues info).getD 9 0 = info.rdevmajor from rfl,
    show (fieldValues info).getD 10 0 = info.rdevminor from rfl]

/-- The encoded entry (header + name + NUL + padding) has length
`align4(111 + len(name))`. -/
theorem encode_length (info : CPIOInfo) :
    info.encode.length = (111 + info.name.length + 3) / 4 * 4 := by
  have hEH := encodedHeader_length info
  rw [CPIOInfo.encode]
  simp only [List.length_append, List.length_replicate, List.length_singleton, hEH]
  omega

theorem seqOption_cons_none {α : Type} (rest : List (Option α)) :
    seqOption (none :: rest) = none := rfl

theorem seqOption_cons_some {α : Type} (v : α) (rest : List (Option α)) :
    seqOption (some v :: rest) =
      match seqOption rest with
      | none => none
      | some vs => some (v :: vs) := rfl

/-- `seqOption` fails as soon as one element is `none`. -/
theorem seqOption_eq_none {α : Type} {l : List (Option α)} (h : none ∈ l) :
    seqOption l = none := by
  induction l with
  | nil => simp at h
  | cons o rest ih =>
      rcases o with _ | v
      · exact seqOption_cons_none rest
      · have hr : none ∈ rest := by
          rcases List.mem_cons.mp h with h' | h'
          · exact absurd h' (by simp)
          · exact h'
        rw [seqOption_cons_some, ih hr]

/-- Decoding at or past end of file fails with the truncation error. -/
theorem fromFile_at_eof {fp : File} (h : fp.data.length ≤ fp.pos) :
    CPIOInfo.fromFile fp = .error (.badCPIOFile "CPIO truncated.") := by
  have hdrop : fp.data.drop fp.pos = [] := List.drop_eq_nil_of_le h
  have hread : File.read fp 110 = ([], fp) := by
    rw [File.read]
    simp [hdrop]
  obtain ⟨data, pos⟩ := fp
  rw [CPIOInfo.fromFile]
  simp only [hread]
  rw [if_pos (by simp)]

/-- If any of the twelve parsed fields `ino` … `namesize` fails Python
base-16 parsing, decoding fails with the non-hex error (given an available
header with good magic). -/
theorem fromFile_nonhex {fp : File}
    (hlen : ((fp.data.drop fp.pos).take 110).length = 110)
    (hmagic : ((fp.data.drop fp.pos).take 110).take 6 = magicBytes)
    (hbad : ∃ i, i < 12 ∧
      pyIntHex16 (headerField ((fp.data.drop fp.pos).take 110) i) = none) :
    CPIOInfo.fromFile fp
      = .error (.badCPIOFile "CPIO header contains non-hex-encoded integer.") := by
  have hread : File.read fp 110
      = ((fp.data.drop fp.pos).take 110, ⟨fp.data, fp.pos + 110⟩) := by
    simp [File.read, hlen]
  rcases hbad with ⟨i, hi, hnone⟩
  have hseq : seqOption ((List.range 12).map
        (fun j => pyIntHex16 (headerField ((fp.data.drop fp.pos).take 110) j)))
      = none := by
    apply seqOption_eq_none
    rw [List.mem_map]
    exact ⟨i, List.mem_range.mpr hi, hnone⟩
  rw [CPIOInfo.fromFile]
  simp only [hread, hseq]
  rw [if_neg (by omega), if_neg (by rw [hmagic]; exact fun hh => hh rfl)]

/-- If the header is available with good magic, all twelve fields parse,
and the parsed `namesize` is zero, decoding fails with the zero-length
filename error. -/
theorem fromFile_zero_namesize {fp : File} {vals : List Int}
    (hlen : ((fp.data.drop fp.pos).take 110).length = 110)
    (hmagic : ((fp.data.drop fp.pos).take 110).take 6 = magicBytes)
    (hseq : seqOption ((List.range 12).map
        (fun j => pyIntHex16 (headerField ((fp.data.drop fp.pos).take 110) j)))
      = some vals)
    (hns : vals.getD 11 0 = 0) :
    CPIOInfo.fromFile fp
      = .error (.badCPIOFile "CPIO entry with zero-length filename.") := by
  have hread : File.read fp 110
      = ((fp.data.drop fp.pos).take 110, ⟨fp.data, fp.pos + 110⟩) := by
    simp [File.read, hlen]
  rw [CPIOInfo.fromFile]
  simp only [hread, hseq]
  rw [if_neg (by omega), if_neg (by rw [hmagic]; exact fun hh => hh rfl),
    if_pos hns]

/-- Inversion of a successful decode: the descriptor's offset is the
cursor, the store is unchanged, the `namesize` bytes after the header are
exactly the name plus one trailing NUL, and the cursor ends just past
them.  (Nothing constrains the name's inner bytes: only the final byte is
checked against NUL.) -/
theorem fromFile_ok_inv {fp : File} {d : CPIOInfo} {fp' : File}
    (h : CPIOInfo.fromFile fp = .ok (d, fp')) :
    d.offset = fp.pos ∧ fp'.data = fp.data ∧
      (fp.data.drop (fp.pos + 110)).take (d.name.length + 1) = d.name ++ [0] ∧
      fp'.pos = fp.pos + 111 + d.name.length := by
  have hr : File.read fp 110 = ((fp.data.drop fp.pos).take 110,
      ⟨fp.data, fp.pos + ((fp.data.drop fp.pos).take 110).length⟩) := by
    simp [File.read]
  simp only [CPIOInfo.fromFile, hr] at h
  split at h
  · simp at h
  rename_i hlen110
  have hlen110' : ((fp.data.drop fp.pos).take 110).length = 110 :=
    not_not.mp hlen110
  rw [hlen110'] at h
  split at h
  · simp at h
  split at h
  · simp at h
  rename_i vals hvals
  split at h
  · simp at h
  rename_i hns0
  split at h
  · simp at h
  rename_i hlenname
  split at h
  · simp at h
  rename_i hnul
  rw [Except.ok.injEq, Prod.mk.injEq] at h
  obtain ⟨hd, hfp⟩ := h
  rw [not_ne_iff] at hlenname hnul
  set NS : Int := vals.getD 11 0 with hNS
  by_cases hneg : NS < 0
  · exfalso
    have hread2 : File.read ⟨fp.data, fp.pos + 110⟩ NS
        = (fp.data.drop (fp.pos + 110),
           ⟨fp.data, fp.pos + 110 + (fp.data.drop (fp.pos + 110)).length⟩) := by
      rw [File.read, if_pos hneg]
    rw [hread2] at hlenname
    simp only at hlenname
    omega
  · have hread2 : File.read ⟨fp.data, fp.pos + 110⟩ NS
        = ((fp.data.drop (fp.pos + 110)).take NS.toNat,
           ⟨fp.data, fp.pos + 110 +
             ((fp.data.drop (fp.pos + 110)).take NS.toNat).length⟩) := by
      rw [File.read, if_neg hneg]
    rw [hread2] at hlenname hnul hd hfp
    simp only at hlenname hnul hd hfp
    set nameB : List Nat :=
      (fp.data.drop (fp.pos + 110)).take NS.toNat with hnameB
    have hlen' : (nameB.length : Int) = NS := hlenname
    have hBne : nameB ≠ [] := by
      intro hnil
      rw [hnil] at hlen'
      simp only [List.length_nil, Nat.cast_zero] at hlen'
      exact hns0 hlen'.symm
    have hlast : nameB.getLast hBne = 0 := by
      have hsome := List.getLast?_eq_getLast nameB hBne
      rw [hsome] at hnul
      exact (Option.some.injEq _ _).mp hnul
    have hconcat : nameB.dropLast ++ [0] = nameB := by
      conv_rhs => rw [← List.dropLast_concat_getLast hBne]
      rw [hlast]
    have hB1 : 1 ≤ nameB.length := by
      rcases hne : nameB with _ | _
      · exact absurd hne hBne
      · simp
    have hdl : nameB.dropLast.length + 1 = nameB.length := by
      rw [List.length_dropLast]
      omega
    have hle : nameB.length ≤ NS.toNat := by
      rw [hnameB, List.length_take]
      omega
    have htake : (fp.data.drop (fp.pos + 110)).take nameB.length = nameB := by
      calc (fp.data.drop (fp.pos + 110)).take nameB.length
          = (fp.data.drop (fp.pos + 110)).take
              (min nameB.length NS.toNat) := by
            rw [min_eq_left hle]
        _ = ((fp.data.drop (fp.pos + 110)).take NS.toNat).take
              nameB.length := (List.take_take _ _ _).symm
        _ = nameB.take nameB.length := by rw [← hnameB]
        _ = nameB := List.take_length nameB
    refine ⟨by rw [← hd], by rw [← hfp], ?_, ?_⟩
    · rw [← hd]
      show (fp.data.drop (fp.pos + 110)).take (nameB.dropLast.length + 1)
        = nameB.dropLast ++ [0]
      rw [hdl, htake, hconcat]
    · rw [← hfp, ← hd]
      show fp.pos + 110 + nameB.length = fp.pos + 111 + nameB.dropLast.length
      omega

/-- Inversion of a successful absolute seek: the target was nonnegative
and the cursor moved there. -/
theorem seekTo_ok_inv {fp fp'' : File} {p : Int} (h : fp.seekTo p = .ok fp'') :
    0 ≤ p ∧ fp'' = ⟨fp.data, p.toNat⟩ := by
  rw [File.seekTo] at h
  split at h
  · simp at h
  · rename_i hp
    exact ⟨by omega, ((Except.ok.injEq _ _).mp h).symm⟩

/-- No descriptor the scan loop yields is named `TRAILER!!!`: decoding the
trailer name stops the loop before the yield. -/
theorem scanFrom_yield_not_trailer :
    ∀ (fuel : Nat) (fp : File), ∀ d ∈ (scanFrom fp fuel).yielded,
      d.name ≠ trailerName := by
  intro fuel
  induction fuel with
  | zero => intro fp d hd; simp [scanFrom] at hd
  | succ fuel ih =>
      intro fp d hd
      rw [scanFrom] at hd
      cases hff : CPIOInfo.fromFile fp with
      | error e => rw [hff] at hd; simp at hd
      | ok r =>
          obtain ⟨info, fp'⟩ := r
          rw [hff] at hd
          simp only at hd
          by_cases htr : info.name = trailerName
          · rw [if_pos htr] at hd
            simp at hd
          · rw [if_neg htr] at hd
            cases hseek : fp'.seekTo info.offsetAfter with
            | error e =>
                rw [hseek] at hd
                simp only [List.mem_singleton] at hd
                rw [hd]
                exact htr
            | ok fp'' =>
                rw [hseek] at hd
                simp only [List.mem_cons] at hd
                rcases hd with hd | hd
                · rw [hd]; exact htr
                · exact ih fp'' d hd

/-- Decoding a trailer-named entry ends the scan at once, yielding
nothing. -/
theorem scanFrom_trailer_stops {fp fp' : File} {d : CPIOInfo} (fuel : Nat)
    (hff : CPIOInfo.fromFile fp = .ok (d, fp')) (htr : d.name = trailerName) :
    scanFrom fp (fuel + 1) = ⟨[], .ended⟩ := by
  rw [scanFrom, hff]
  simp only
  rw [if_pos htr]

/-- Every descriptor the scan loop yields from a 4-aligned start position
has a 4-aligned header offset (each entry's span is a multiple of 4). -/
theorem scanFrom_offsets_aligned :
    ∀ (fuel : Nat) (fp : File), fp.pos % 4 = 0 →
      ∀ d ∈ (scanFrom fp fuel).yielded, d.offset % 4 = 0 := by
  intro fuel
  induction fuel with
  | zero => intro fp _ d hd; simp [scanFrom] at hd
  | succ fuel ih =>
      intro fp hp d hd
      rw [scanFrom] at hd
      cases hff : CPIOInfo.fromFile fp with
      | error e => rw [hff] at hd; simp at hd
      | ok r =>
          obtain ⟨info, fp'⟩ := r
          rw [hff] at hd
          simp only at hd
          have hoff : info.offset = fp.pos := (fromFile_ok_inv hff).1
          by_cases htr : info.name = trailerName
          · rw [if_pos htr] at hd
            simp at hd
          · rw [if_neg htr] at hd
            cases hseek : fp'.seekTo info.offsetAfter with
            | error e =>
                rw [hseek] at hd
                simp only [List.mem_singleton] at hd
                rw [hd, hoff]
                exact hp
            | ok fp'' =>
                rw [hseek] at hd
                simp only [List.mem_cons] at hd
                rcases hd with hd | hd
                · rw [hd, hoff]
                  exact hp
                · rcases seekTo_ok_inv hseek with ⟨hp0, hfp''⟩
                  have halign : info.offsetAfter % 4 = 0 := by
                    rw [CPIOInfo.offsetAfter, CPIOInfo.offsetData, hoff]
                    have : (fp.pos : Int) % 4 = 0 := by omega
                    omega
                  have : fp''.pos % 4 = 0 := by
                    rw [hfp'']
                    show info.offsetAfter.toNat % 4 = 0
                    omega
                  exact ih fp'' this d hd

/-! ## Claim theorems -/

set_option maxRecDepth 100000

/-- C7: while the single-writer latch is held, opening a second write
stream through `CPIOFile.open(…, "w")` fails with the concurrent-writer
`ValueError`, for every descriptor; the archive (and with it the latch,
and the first stream's separately held state) is returned untouched — the
source raises before mutating anything. -/
theorem claim_C7_second_writer_fails (a : CPIOFile) (info : CPIOInfo)
    (hw : a.writeable = true) (hactive : a.writer_active = true) :
    a.openMember info "w"
      = (.error (.valueError
          "Cannot open two CPIO member writers at the same time."), a) := by
  rw [CPIOFile.openMember, if_neg (by decide), if_pos rfl, if_pos hw,
    WriteableMember.init, if_pos hactive]
  rfl

/-- Witness for C7 at a concrete latched archive. -/
theorem claim_C7_witness :
    (⟨⟨[], 0⟩, true, true⟩ : CPIOFile).openMember trailerInfo "w"
      = (.error (.valueError
          "Cannot open two CPIO member writers at the same time."),
         ⟨⟨[], 0⟩, true, true⟩) :=
  claim_C7_second_writer_fails ⟨⟨[], 0⟩, true, true⟩ trailerInfo rfl rfl

/-- C8: the first close of a member writer whose accumulated length
differs from the declared `filesize` fails with the length-mismatch
`ValueError`, writing nothing and leaving both the stream state and the
archive (latch included) untouched; with matching lengths it appends
zero padding to the next 4-byte boundary, marks the stream closed and
releases the latch. -/
theorem claim_C8_close_length_check (wm : WriteableMember) (a : CPIOFile)
    (hopen : wm.closed = false) :
    ((wm.actual_length : Int) ≠ wm.expected_length →
      wm.close a = (.error (.valueError ("Writer wrote "
        ++ toString wm.actual_length ++ " bytes but info specified "
        ++ toString wm.expected_length ++ " bytes.")), wm, a)) ∧
    ((wm.actual_length : Int) = wm.expected_length →
      wm.close a = (.ok (),
        ⟨wm.expected_length, wm.actual_length, true⟩,
        ⟨⟨a.file.data ++ List.replicate ((4 - wm.actual_length % 4) % 4) 0,
          a.file.data.length + ((4 - wm.actual_length % 4) % 4)⟩,
         a.writeable, false⟩)) := by
  constructor
  · intro hne
    rw [WriteableMember.close, if_neg (by simp [hopen]), if_pos hne]
  · intro heq
    rw [WriteableMember.close, if_neg (by simp [hopen]),
      if_neg (fun hh => hh heq), File.seekEnd_write]
    simp

/-- Witness for C8 at concrete writers: a mismatched close (3 of 5 bytes)
fails and changes nothing; a matched close (4 of 4 bytes) pads with zero
bytes (here none are needed) and releases the latch. -/
theorem claim_C8_witness :
    ((⟨5, 3, false⟩ : WriteableMember).close ⟨⟨[1, 2, 3], 3⟩, true, true⟩
      = (.error (.valueError
          "Writer wrote 3 bytes but info specified 5 bytes."),
         ⟨5, 3, false⟩, ⟨⟨[1, 2, 3], 3⟩, true, true⟩)) ∧
    ((⟨4, 4, false⟩ : WriteableMember).close ⟨⟨[9, 9, 9, 9], 4⟩, true, true⟩
      = (.ok (), ⟨4, 4, true⟩, ⟨⟨[9, 9, 9, 9], 4⟩, true, false⟩)) :=
  ⟨(claim_C8_close_length_check ⟨5, 3, false⟩ ⟨⟨[1, 2, 3], 3⟩, true, true⟩
      rfl).1 (by decide),
   (claim_C8_close_length_check ⟨4, 4, false⟩ ⟨⟨[9, 9, 9, 9], 4⟩, true, true⟩
      rfl).2 (by decide)⟩

/-- C9: closing a writeable archive with no member writer active appends
exactly one framed trailer entry — the encoding of the synthetic
descriptor with name `TRAILER!!!`, `filesize` 0, `ino` 0, `mode` 0o755,
`nlink` 1 and all other numeric fields 0 — written through the ordinary
member-writer path with zero data bytes; if a member writer is still
active, close fails with the concurrent-writer `ValueError` and changes
nothing. -/
theorem claim_C9_close_appends_trailer (a : CPIOFile) (hw : a.writeable = true) :
    (a.writer_active = false →
      CPIOFile.close a = (.ok (),
        ⟨⟨a.file.data ++ trailerInfo.encode,
          a.file.data.length + trailerInfo.encode.length⟩, true, false⟩)) ∧
    (a.writer_active = true →
      CPIOFile.close a = (.error (.valueError
        "Cannot close CPIO until member writer has been closed."), a)) := by
  constructor
  · intro hidle
    rw [CPIOFile.close, if_pos hw, if_neg (by simp [hidle]),
      WriteableMember.init, if_neg (by simp [hidle]), File.seekEnd_write]
    simp only
    rw [WriteableMember.close, if_neg (by simp), if_neg (by decide)]
    simp only
    rw [File.seekEnd_write]
    simp [hw]
  · intro hactive
    rw [CPIOFile.close, if_pos hw, if_pos hactive]

/-- Witness for C9 at a concrete writeable archive holding 4 bytes, and a
latched one. -/
theorem claim_C9_witness :
    (CPIOFile.close ⟨⟨[1, 2, 3, 4], 0⟩, true, false⟩
      = (.ok (), ⟨⟨[1, 2, 3, 4] ++ trailerInfo.encode,
          4 + trailerInfo.encode.length⟩, true, false⟩)) ∧
    (CPIOFile.close ⟨⟨[1, 2, 3, 4], 0⟩, true, true⟩
      = (.error (.valueError
          "Cannot close CPIO until member writer has been closed."),
         ⟨⟨[1, 2, 3, 4], 0⟩, true, true⟩)) :=
  ⟨(claim_C9_close_appends_trailer ⟨⟨[1, 2, 3, 4], 0⟩, true, false⟩ rfl).1 rfl,
   (claim_C9_close_appends_trailer ⟨⟨[1, 2, 3, 4], 0⟩, true, true⟩ rfl).2 rfl⟩

/-- C10: `CPIOFile.open(info, "r")` performs no access-mode check at all —
it succeeds on every archive, writeable or not, returning the bounded read
stream; a mode `ValueError` arises only from `"w"` on a read-only archive
(read-only message) or from a mode string other than `"r"`/`"w"` (unknown
mode message); `"w"` on a writeable archive never raises a mode error —
it either returns a write stream or fails with the distinct
concurrent-writer message. -/
theorem claim_C10_read_ignores_mode (a : CPIOFile) (info : CPIOInfo) :
    (a.openMember info "r"
      = (.ok (.readable ⟨info.offsetData, info.filesize, 0⟩), a)) ∧
    (a.writeable = false →
      a.openMember info "w"
        = (.error (.valueError "CPIO is open read-only."), a)) ∧
    (∀ m : String, m ≠ "r" → m ≠ "w" →
      a.openMember info m
        = (.error (.valueError ("Unknown mode " ++ m ++ ".")), a)) ∧
    (a.writeable = true → a.writer_active = false →
      a.openMember info "w"
        = (.ok (.writeable ⟨info.filesize, 0, false⟩),
           ⟨(a.file.seekEnd).write info.encode, true, true⟩)) ∧
    (a.writeable = true → a.writer_active = true →
      a.openMember info "w"
        = (.error (.valueError
            "Cannot open two CPIO member writers at the same time."), a)) := by
  refine ⟨?_, ?_, ?_, ?_, ?_⟩
  · rw [CPIOFile.openMember, if_pos rfl]
    rfl
  · intro hro
    rw [CPIOFile.openMember, if_neg (by decide), if_pos rfl,
      if_neg (by simp [hro])]
  · intro m hr hw
    rw [CPIOFile.openMember, if_neg hr, if_neg hw]
  · intro hw hidle
    rw [CPIOFile.openMember, if_neg (by decide), if_pos rfl, if_pos hw,
      WriteableMember.init, if_neg (by simp [hidle]), hw]
    rfl
  · intro hw hactive
    rw [CPIOFile.openMember, if_neg (by decide), if_pos rfl, if_pos hw,
      WriteableMember.init, if_pos hactive]
    rfl

/-- Witness for C10 at concrete archives: reading succeeds on a read-only
archive, writing on it fails with the read-only message, and an unknown
mode fails with the unknown-mode message. -/
theorem claim_C10_witness :
    ((⟨⟨[7], 0⟩, false, false⟩ : CPIOFile).openMember trailerInfo "r"
      = (.ok (.readable ⟨124, 0, 0⟩), ⟨⟨[7], 0⟩, false, false⟩)) ∧
    ((⟨⟨[7], 0⟩, false, false⟩ : CPIOFile).openMember trailerInfo "w"
      = (.error (.valueError "CPIO is open read-only."),
         ⟨⟨[7], 0⟩, false, false⟩)) ∧
    ((⟨⟨[7], 0⟩, false, false⟩ : CPIOFile).openMember trailerInfo "x"
      = (.error (.valueError "Unknown mode x."), ⟨⟨[7], 0⟩, false, false⟩)) :=
  ⟨by
    have h := (claim_C10_read_ignores_mode ⟨⟨[7], 0⟩, false, false⟩ trailerInfo).1
    rw [show trailerInfo.offsetData = 124 by decide,
      show trailerInfo.filesize = 0 by decide] at h
    exact h,
   (claim_C10_read_ignores_mode ⟨⟨[7], 0⟩, false, false⟩ trailerInfo).2.1 rfl,
   (claim_C10_read_ignores_mode ⟨⟨[7], 0⟩, false, false⟩
      trailerInfo).2.2.1 "x" (by decide) (by decide)⟩

/-- C6: no descriptor yielded by `infolist` is named `TRAILER!!!`, for any
archive and any amount of scanning; and whenever the loop's decode at its
current position returns a trailer-named entry, the scan ends there,
yielding nothing further. -/
theorem claim_C6_scan_never_yields_trailer (a : CPIOFile) (fuel : Nat) :
    (∀ d ∈ (a.infolist fuel).yielded, d.name ≠ trailerName) ∧
    (∀ (fp fp' : File) (d : CPIOInfo),
      CPIOInfo.fromFile fp = .ok (d, fp') → d.name = trailerName →
      scanFrom fp (fuel + 1) = ⟨[], .ended⟩) := by
  constructor
  · intro d hd
    exact scanFrom_yield_not_trailer fuel ⟨a.file.data, 0⟩ d hd
  · intro fp fp' d hff htr
    exact scanFrom_trailer_stops fuel hff htr

/-- Witness for C6: a concrete archive holding one `hello.txt` member and
a trailer; the member the scan yields is not named like the trailer, and
a scan positioned at a trailer ends at once. -/
theorem claim_C6_witness :
    ((⟨0, 1, 33188, 0, 0, 1, 0, 5, 0, 0, 0, 0,
        strBytes "hello.txt"⟩ : CPIOInfo).name ≠ trailerName) ∧
    scanFrom ⟨trailerInfo.encode, 0⟩ 1 = ⟨[], .ended⟩ :=
  ⟨(claim_C6_scan_never_yields_trailer
      ⟨⟨(CPIOInfo.mk 0 1 33188 0 0 1 0 5 0 0 0 0
            (strBytes "hello.txt")).encode ++ strBytes "world" ++ [0, 0, 0]
          ++ trailerInfo.encode, 0⟩, false, false⟩ 3).1
      ⟨0, 1, 33188, 0, 0, 1, 0, 5, 0, 0, 0, 0, strBytes "hello.txt"⟩
      (by decide),
   (claim_C6_scan_never_yields_trailer ⟨⟨[], 0⟩, false, false⟩ 0).2
      ⟨trailerInfo.encode, 0⟩ ⟨trailerInfo.encode, 121⟩
      ⟨0, 0, 493, 0, 0, 1, 0, 0, 0, 0, 0, 0, trailerName⟩
      (by decide) (by decide)⟩

/-- C2 counterexample: a 110-byte header whose `ino` field contains the
non-hex byte `+` (43) and whose `check` field is all `z` (122) still
decodes successfully — Python's `int(·, 16)` accepts a sign, and the
`check` field is never parsed — contradicting the claim that any non-hex
character in the 13 fields `ino` … `check` fails with `BadCPIOFile`. -/
theorem claim_C2_counterexample :
    43 ∈ headerField (strBytes "070701+00000010000000000000000000000000000000000000000000000000000000000000000000000000000000000000002zzzzzzzz") 0 ∧
    hexDigitVal 43 = none ∧
    122 ∈ headerField (strBytes "070701+00000010000000000000000000000000000000000000000000000000000000000000000000000000000000000000002zzzzzzzz") 12 ∧
    hexDigitVal 122 = none ∧
    CPIOInfo.fromFile ⟨strBytes "070701+00000010000000000000000000000000000000000000000000000000000000000000000000000000000000000000002zzzzzzzz" ++ [97, 0], 0⟩
      = .ok (⟨0, 1, 0, 0, 0, 0, 0, 0, 0, 0, 0, 0, [97]⟩,
             ⟨strBytes "070701+00000010000000000000000000000000000000000000000000000000000000000000000000000000000000000000002zzzzzzzz" ++ [97, 0], 112⟩) := by
  decide

/-- C2 (amended): for an available 110-byte header with the correct
magic, decoding fails with the `BadCPIOFile` message
`CPIO header contains non-hex-encoded integer.` whenever any of the
twelve fields `ino` … `namesize` fails Python base-16 parsing (which
besides plain hex digits also tolerates surrounding ASCII whitespace, one
sign, one `0x`/`0X` prefix, and underscores between digits — so some
fields containing non-hex characters still parse); the 13th field,
`check`, is never parsed at all. -/
theorem claim_C2_nonhex_fails (fp : File)
    (hlen : ((fp.data.drop fp.pos).take 110).length = 110)
    (hmagic : ((fp.data.drop fp.pos).take 110).take 6 = magicBytes)
    (hbad : ∃ i, i < 12 ∧
      pyIntHex16 (headerField ((fp.data.drop fp.pos).take 110) i) = none) :
    CPIOInfo.fromFile fp
      = .error (.badCPIOFile "CPIO header contains non-hex-encoded integer.") :=
  fromFile_nonhex hlen hmagic hbad

/-- Witness for the amended C2: a header whose `mode` field is
`gggggggg` fails decoding with the non-hex error. -/
theorem claim_C2_witness :
    CPIOInfo.fromFile ⟨strBytes "07070100000000gggggggg0000000000000000000000000000000000000000000000000000000000000000000000000000000100000000" ++ [0], 0⟩
      = .error (.badCPIOFile "CPIO header contains non-hex-encoded integer.") :=
  claim_C2_nonhex_fails ⟨strBytes "07070100000000gggggggg0000000000000000000000000000000000000000000000000000000000000000000000000000000100000000" ++ [0], 0⟩
    (by decide) (by decide) ⟨1, by decide, by decide⟩

/-- C3 counterexample: a wire entry with `namesize = 1` (a lone NUL)
decodes successfully to an empty name, and one with `namesize = 3` and
name bytes `A NUL NUL` decodes to a name containing an embedded NUL —
contradicting both the claim that a zero-length name fails decoding and
the claim that decoded names never contain NUL. -/
theorem claim_C3_counterexample :
    (CPIOInfo.fromFile ⟨strBytes "07070100000000000000000000000000000000000000000000000000000000000000000000000000000000000000000000000100000000" ++ [0], 0⟩
      = .ok (⟨0, 0, 0, 0, 0, 0, 0, 0, 0, 0, 0, 0, []⟩,
             ⟨strBytes "07070100000000000000000000000000000000000000000000000000000000000000000000000000000000000000000000000100000000" ++ [0], 111⟩)) ∧
    (CPIOInfo.fromFile ⟨strBytes "07070100000000000000000000000000000000000000000000000000000000000000000000000000000000000000000000000300000000" ++ [65, 0, 0], 0⟩
      = .ok (⟨0, 0, 0, 0, 0, 0, 0, 0, 0, 0, 0, 0, [65, 0]⟩,
             ⟨strBytes "07070100000000000000000000000000000000000000000000000000000000000000000000000000000000000000000000000300000000" ++ [65, 0, 0], 113⟩)) ∧
    (0 ∈ [65, 0]) := by
  decide

/-- C3 (amended): a successful decode strips exactly one trailing NUL —
the bytes after the header are the decoded name plus a single NUL, with
no constraint on the name's inner bytes (the name may be empty, and may
contain NULs); decoding rejects only a `namesize` field equal to zero,
with the zero-length-filename `BadCPIOFile`. -/
theorem claim_C3_name_framing :
    (∀ (fp : File) (d : CPIOInfo) (fp' : File),
      CPIOInfo.fromFile fp = .ok (d, fp') →
      (fp.data.drop (fp.pos + 110)).take (d.name.length + 1) = d.name ++ [0]) ∧
    (∀ (fp : File) (vals : List Int),
      ((fp.data.drop fp.pos).take 110).length = 110 →
      ((fp.data.drop fp.pos).take 110).take 6 = magicBytes →
      seqOption ((List.range 12).map
        (fun j => pyIntHex16 (headerField ((fp.data.drop fp.pos).take 110) j)))
        = some vals →
      vals.getD 11 0 = 0 →
      CPIOInfo.fromFile fp
        = .error (.badCPIOFile "CPIO entry with zero-length filename.")) :=
  ⟨fun _ _ _ h => (fromFile_ok_inv h).2.2.1,
   fun _ _ h1 h2 h3 h4 => fromFile_zero_namesize h1 h2 h3 h4⟩

/-- Witness for the amended C3: the name-plus-NUL framing at a concrete
decode, and the zero-`namesize` rejection at a concrete header. -/
theorem claim_C3_witness :
    (((strBytes "07070100000000000000000000000000000000000000000000000000000000000000000000000000000000000000000000000300000000" ++ [65, 0, 0]).drop (0 + 110)).take
        (([65, 0] : List Nat).length + 1) = [65, 0] ++ [0]) ∧
    (CPIOInfo.fromFile ⟨strBytes "07070100000000000000000000000000000000000000000000000000000000000000000000000000000000000000000000000000000000", 0⟩
      = .error (.badCPIOFile "CPIO entry with zero-length filename.")) :=
  ⟨claim_C3_name_framing.1 ⟨strBytes "07070100000000000000000000000000000000000000000000000000000000000000000000000000000000000000000000000300000000" ++ [65, 0, 0], 0⟩
      ⟨0, 0, 0, 0, 0, 0, 0, 0, 0, 0, 0, 0, [65, 0]⟩
      ⟨strBytes "07070100000000000000000000000000000000000000000000000000000000000000000000000000000000000000000000000300000000" ++ [65, 0, 0], 113⟩ (by decide),
   claim_C3_name_framing.2 ⟨strBytes "07070100000000000000000000000000000000000000000000000000000000000000000000000000000000000000000000000000000000", 0⟩
      [0, 0, 0, 0, 0, 0, 0, 0, 0, 0, 0, 0]
      (by decide) (by decide) (by decide) (by decide)⟩

/-- C4 counterexample: the same wire entry decoded at the unaligned
position 1 yields a descriptor whose `_offset_data` (113) differs from
the claim's `align4(header_offset + 110 + len(name) + 1)` (112): the
source adds the header offset after rounding, not before. -/
theorem claim_C4_counterexample :
    (CPIOInfo.fromFile ⟨99 :: (strBytes "07070100000000000000000000000000000000000000000000000000000000000000000000000000000000000000000000000100000000" ++ [0]), 1⟩
      = .ok (⟨1, 0, 0, 0, 0, 0, 0, 0, 0, 0, 0, 0, []⟩,
             ⟨99 :: (strBytes "07070100000000000000000000000000000000000000000000000000000000000000000000000000000000000000000000000100000000" ++ [0]), 112⟩)) ∧
    (⟨1, 0, 0, 0, 0, 0, 0, 0, 0, 0, 0, 0, []⟩ : CPIOInfo).offsetData = 113 ∧
    ((⟨1, 0, 0, 0, 0, 0, 0, 0, 0, 0, 0, 0, []⟩ : CPIOInfo).offset + 110
        + ([] : List Nat).length + 1 + 3) / 4 * 4 = 112 := by
  decide

/-- At a 4-aligned header offset the source's offset arithmetic agrees
with the spec's `align4` formulas. -/
theorem offsets_formula_aligned (d : CPIOInfo) (h4 : d.offset % 4 = 0) :
    d.offsetData = (d.offset + 110 + d.name.length + 1 + 3) / 4 * 4 ∧
    d.offsetAfter = ((d.offsetData : Int) + d.filesize + 3) / 4 * 4 := by
  constructor
  · rw [CPIOInfo.offsetData]
    omega
  · have hD : d.offsetData % 4 = 0 := by
      rw [CPIOInfo.offsetData]
      omega
    have hDi : (d.offsetData : Int) % 4 = 0 := by omega
    rw [CPIOInfo.offsetAfter]
    omega

/-- C4 (amended): for every descriptor the scan produces — scanning
starts at offset 0 and every entry spans a multiple of 4 bytes, so all
their header offsets are 4-aligned — `_offset_data` equals
`align4(header_offset + 110 + len(name) + 1)` and `_offset_after` equals
`align4(data_offset + data_size)`; at unaligned header offsets the code
instead adds the offset after rounding (see the counterexample). -/
theorem claim_C4_offset_formulas (a : CPIOFile) (fuel : Nat) :
    ∀ d ∈ (a.infolist fuel).yielded,
      d.offsetData = (d.offset + 110 + d.name.length + 1 + 3) / 4 * 4 ∧
      d.offsetAfter = ((d.offsetData : Int) + d.filesize + 3) / 4 * 4 := by
  intro d hd
  exact offsets_formula_aligned d
    (scanFrom_offsets_aligned fuel ⟨a.file.data, 0⟩ (by simp) d hd)

/-- Witness for the amended C4 at the scanned `hello.txt` member. -/
theorem claim_C4_witness :
    (⟨0, 1, 33188, 0, 0, 1, 0, 5, 0, 0, 0, 0,
       strBytes "hello.txt"⟩ : CPIOInfo).offsetData
      = ((0 : Nat) + 110 + (strBytes "hello.txt").length + 1 + 3) / 4 * 4 ∧
    (⟨0, 1, 33188, 0, 0, 1, 0, 5, 0, 0, 0, 0,
       strBytes "hello.txt"⟩ : CPIOInfo).offsetAfter
      = (((⟨0, 1, 33188, 0, 0, 1, 0, 5, 0, 0, 0, 0,
            strBytes "hello.txt"⟩ : CPIOInfo).offsetData : Int) + 5 + 3) / 4 * 4 :=
  claim_C4_offset_formulas
    ⟨⟨(CPIOInfo.mk 0 1 33188 0 0 1 0 5 0 0 0 0
          (strBytes "hello.txt")).encode ++ strBytes "world" ++ [0, 0, 0]
        ++ trailerInfo.encode, 0⟩, false, false⟩ 3
    ⟨0, 1, 33188, 0, 0, 1, 0, 5, 0, 0, 0, 0, strBytes "hello.txt"⟩
    (by decide)

/-- C5: evaluation at the failing input — a header whose `filesize` field
is `-fffffff` decodes successfully (Python `int(·, 16)` accepts the
sign), and the decoded descriptor's `entry_end - header_offset` is
negative (though still a multiple of 4), contradicting the claim that it
is always positive. -/
theorem claim_C5_entry_span_negative :
    (CPIOInfo.fromFile ⟨strBytes "070701000000000000000000000000000000000000000000000000-fffffff000000000000000000000000000000000000000100000000" ++ [0], 0⟩
      = .ok (⟨0, 0, 0, 0, 0, 0, 0, -268435455, 0, 0, 0, 0, []⟩,
             ⟨strBytes "070701000000000000000000000000000000000000000000000000-fffffff000000000000000000000000000000000000000100000000" ++ [0], 111⟩)) ∧
    ((⟨0, 0, 0, 0, 0, 0, 0, -268435455, 0, 0, 0, 0, []⟩ : CPIOInfo).offsetAfter
        - ((⟨0, 0, 0, 0, 0, 0, 0, -268435455, 0, 0, 0, 0,
            []⟩ : CPIOInfo).offset : Int)
      = -268435340) ∧
    ¬(0 < (-268435340 : Int)) ∧ (-268435340 : Int) % 4 = 0 := by
  decide

/-- C1 counterexample: writing a member explicitly named `TRAILER!!!`
(the reserved end-of-archive marker) over a fresh store and scanning the
store back yields no descriptor at all — the scan takes the member for
the trailer and stops — so the claimed round trip fails for that name. -/
theorem claim_C1_counterexample :
    writeOneMember ⟨0, 7, 493, 0, 0, 1, 0, 0, 0, 0, 0, 0, trailerName⟩ []
      = .ok ⟨(CPIOInfo.mk 0 7 493 0 0 1 0 0 0 0 0 0 trailerName).encode,
             (CPIOInfo.mk 0 7 493 0 0 1 0 0 0 0 0 0 trailerName).encode.length⟩ ∧
    scanFrom ⟨(CPIOInfo.mk 0 7 493 0 0 1 0 0 0 0 0 0 trailerName).encode, 0⟩ 2
      = ⟨[], .ended⟩ := by
  decide

/-- C1 (amended): the write-then-read round trip holds for every
descriptor whose name is not the reserved `TRAILER!!!` marker: with the
descriptor's thirteen wire values unsigned 32-bit (as the data model
requires) and exactly `filesize` data bytes written, writing the member
over a fresh store through the public write path, then scanning the
store, yields exactly one descriptor whose numeric fields and name equal
those written, and reading that member back returns data byte-identical
to what was written. -/
theorem claim_C1_roundtrip (info : CPIOInfo) (data : List Nat)
    (hrange : ∀ v ∈ fieldValues info, 0 ≤ v ∧ v < 2 ^ 32)
    (hdata : (data.length : Int) = info.filesize)
    (hnotr : info.name ≠ trailerName) :
    ∃ st : File, writeOneMember info data = .ok st ∧
      (scanFrom ⟨st.data, 0⟩ 2).yielded
        = [⟨0, info.ino, info.mode, info.uid, info.gid, info.nlink, info.mtime,
            info.filesize, info.devmajor, info.devminor, info.rdevmajor,
            info.rdevminor, info.name⟩] ∧
      readMemberAll ⟨st, false, false⟩
        ⟨0, info.ino, info.mode, info.uid, info.gid, info.nlink, info.mtime,
         info.filesize, info.devmajor, info.devminor, info.rdevmajor,
         info.rdevminor, info.name⟩ = data := by
  have hel := encode_length info
  have h1 : CPIOFile.init ⟨[], 0⟩ "w" = .ok ⟨⟨[], 0⟩, true, false⟩ := by decide
  have h2 : (⟨⟨[], 0⟩, true, false⟩ : CPIOFile).openMember info "w"
      = (.ok (.writeable ⟨info.filesize, 0, false⟩),
         ⟨⟨info.encode, info.encode.length⟩, true, true⟩) := by
    rw [CPIOFile.openMember, if_neg (by decide), if_pos rfl, if_pos rfl,
      WriteableMember.init, if_neg (by simp), File.seekEnd_write]
    simp [Except.map]
  have h3 : (⟨info.filesize, 0, false⟩ : WriteableMember).write
        ⟨⟨info.encode, info.encode.length⟩, true, true⟩ data
      = (⟨info.filesize, data.length, false⟩,
         ⟨⟨info.encode ++ data, info.encode.length + data.length⟩,
          true, true⟩) := by
    rw [WriteableMember.write, File.seekEnd_write]
    simp
  have h4 : (⟨info.filesize, data.length, false⟩ : WriteableMember).close
        ⟨⟨info.encode ++ data, info.encode.length + data.length⟩, true, true⟩
      = (.ok (), ⟨info.filesize, data.length, true⟩,
         ⟨⟨(info.encode ++ data)
              ++ List.replicate ((4 - data.length % 4) % 4) 0,
           (info.encode ++ data).length + (4 - data.length % 4) % 4⟩,
          true, false⟩) := by
    rw [WriteableMember.close, if_neg (by simp),
      if_neg (fun hh => hh hdata), File.seekEnd_write]
    simp
  have hwrite : writeOneMember info data = .ok
      ⟨(info.encode ++ data) ++ List.replicate ((4 - data.length % 4) % 4) 0,
       (info.encode ++ data).length + (4 - data.length % 4) % 4⟩ := by
    rw [writeOneMember, h1]
    simp only [h2, h3, h4]
  have hdec := fromFile_encode info
    (data ++ List.replicate ((4 - data.length % 4) % 4) 0) hrange
  have hassoc : (info.encode ++ data)
        ++ List.replicate ((4 - data.length % 4) % 4) 0
      = info.encode
        ++ (data ++ List.replicate ((4 - data.length % 4) % 4) 0) :=
    List.append_assoc _ _ _
  have hAfter : (⟨0, info.ino, info.mode, info.uid, info.gid, info.nlink,
      info.mtime, info.filesize, info.devmajor, info.devminor, info.rdevmajor,
      info.rdevminor, info.name⟩ : CPIOInfo).offsetAfter
      = ((info.encode
          ++ (data ++ List.replicate ((4 - data.length % 4) % 4) 0)).length
         : Int) := by
    rw [CPIOInfo.offsetAfter, CPIOInfo.offsetData]
    show ((0 + (110 + info.name.length + 1 + 3) / 4 * 4 : Nat) : Int)
        + (info.filesize + 3) / 4 * 4 = _
    rw [← hdata]
    simp only [List.length_append, List.length_replicate, hel]
    push_cast
    omega
  have heof : CPIOInfo.fromFile ⟨info.encode
        ++ (data ++ List.replicate ((4 - data.length % 4) % 4) 0),
      (info.encode
        ++ (data ++ List.replicate ((4 - data.length % 4) % 4) 0)).length⟩
      = .error (.badCPIOFile "CPIO truncated.") :=
    fromFile_at_eof (le_refl _)
  have hrec : scanFrom ⟨info.encode
        ++ (data ++ List.replicate ((4 - data.length % 4) % 4) 0),
      (info.encode
        ++ (data ++ List.replicate ((4 - data.length % 4) % 4) 0)).length⟩ 1
      = ⟨[], .failed (.badCPIOFile "CPIO truncated.")⟩ := by
    show scanFrom _ (0 + 1) = _
    rw [scanFrom, heof]
  have hscan : (scanFrom ⟨info.encode
        ++ (data ++ List.replicate ((4 - data.length % 4) % 4) 0), 0⟩ 2).yielded
      = [⟨0, info.ino, info.mode, info.uid, info.gid, info.nlink, info.mtime,
          info.filesize, info.devmajor, info.devminor, info.rdevmajor,
          info.rdevminor, info.name⟩] := by
    show (scanFrom _ (1 + 1)).yielded = _
    rw [scanFrom]
    simp only [hdec]
    rw [if_neg (show ¬((⟨0, info.ino, info.mode, info.uid, info.gid,
        info.nlink, info.mtime, info.filesize, info.devmajor, info.devminor,
        info.rdevmajor, info.rdevminor, info.name⟩ : CPIOInfo).name
          = trailerName) from hnotr)]
    rw [hAfter, File.seekTo, if_neg (by omega)]
    simp only [Int.toNat_natCast, hrec]
  have hoffdata : (⟨0, info.ino, info.mode, info.uid, info.gid, info.nlink,
      info.mtime, info.filesize, info.devmajor, info.devminor, info.rdevmajor,
      info.rdevminor, info.name⟩ : CPIOInfo).offsetData
      = info.encode.length := by
    rw [CPIOInfo.offsetData]
    show 0 + (110 + info.name.length + 1 + 3) / 4 * 4 = _
    rw [hel]
    omega
  have hreadm : readMemberAll
      ⟨⟨(info.encode ++ data)
            ++ List.replicate ((4 - data.length % 4) % 4) 0,
         (info.encode ++ data).length + (4 - data.length % 4) % 4⟩,
        false, false⟩
      ⟨0, info.ino, info.mode, info.uid, info.gid, info.nlink, info.mtime,
       info.filesize, info.devmajor, info.devminor, info.rdevmajor,
       info.rdevminor, info.name⟩ = data := by
    rw [readMemberAll, CPIOFile.openMember, if_pos rfl]
    simp only [ReadableMember.ofInfo, hoffdata]
    rw [ReadableMember.read, if_pos (Or.inl (by decide))]
    simp only
    rw [File.read]
    simp only
    rw [if_neg (by omega)]
    rw [show ((info.encode.length : Int) + 0).toNat = info.encode.length by
      omega]
    rw [hassoc, List.drop_left' rfl]
    rw [show (info.filesize - 0).toNat = data.length by omega]
    rw [List.take_left]
  refine ⟨⟨(info.encode ++ data)
        ++ List.replicate ((4 - data.length % 4) % 4) 0,
      (info.encode ++ data).length + (4 - data.length % 4) % 4⟩,
    hwrite, ?_, hreadm⟩
  show (scanFrom ⟨(info.encode ++ data)
      ++ List.replicate ((4 - data.length % 4) % 4) 0, 0⟩ 2).yielded = _
  rw [hassoc]
  exact hscan

/-- Witness for the amended C1: the spec's own example — member
`hello.txt` with `filesize` 5 and data `world` — written, scanned back as
the single yielded descriptor, and read back byte-identically. -/
theorem claim_C1_witness :
    ∃ st : File, writeOneMember
        ⟨0, 1, 33188, 0, 0, 1, 0, 5, 0, 0, 0, 0, strBytes "hello.txt"⟩
        (strBytes "world") = .ok st ∧
      (scanFrom ⟨st.data, 0⟩ 2).yielded
        = [⟨0, 1, 33188, 0, 0, 1, 0, 5, 0, 0, 0, 0, strBytes "hello.txt"⟩] ∧
      readMemberAll ⟨st, false, false⟩
        ⟨0, 1, 33188, 0, 0, 1, 0, 5, 0, 0, 0, 0, strBytes "hello.txt"⟩
        = strBytes "world" :=
  claim_C1_roundtrip
    ⟨0, 1, 33188, 0, 0, 1, 0, 5, 0, 0, 0, 0, strBytes "hello.txt"⟩
    (strBytes "world") (by decide) (by decide) (by decide)

end CPIO
